import Mathlib

/-!
Verification of the Helm lifecycle-hook execution engine and release accessor
layer, embedded shallowly from the Go sources:
* pkg/release hook/release accessors (v1 and v2 variants, identical bodies for
  the operations modelled here),
* pkg/action hook execution (execHookCore, execHookWithDelayedShutdown,
  deleteHookByPolicyGeneric, deriveNamespaceGeneric),
* the subchart-sequencing installation-batch scheduler.

External collaborators (the Kubernetes client, the waiter, the log retriever,
the YAML unmarshaller) are modelled as explicit environments of deterministic
outcome functions; effectful code is embedded as explicit state passing with a
call trace, and the deferred-cleanup closures returned by execHookCore are
defunctionalized into an inductive together with an interpreter that embeds
the closure bodies.
-/

namespace HelmSpec

/-! ### Data model (pkg/release/v1 Hook; the v2 shape is identical in the
fields used by the engine) -/

/-- LastRun sub-record of a hook: start time, completion time, phase.
Time is modelled as an abstract monotone clock of Nat ticks. -/
structure HookExecution where
  startedAt : Nat
  completedAt : Nat
  phase : String
deriving Repr, DecidableEq

/-- A lifecycle hook. Field names follow the Go struct; the YAML manifest is
kept as opaque text, as in the source. -/
structure Hook where
  name : String
  path : String
  kind : String
  manifest : String
  weight : Int
  events : List String
  deletePolicies : List String
  outputLogPolicies : List String
  lastRun : HookExecution
deriving Repr, DecidableEq

instance : Inhabited Hook :=
  ⟨⟨"", "", "", "", 0, [], [], [], ⟨0, 0, ""⟩⟩⟩

/-! ### Constants from pkg/release/interfaces.go -/

def HookDeletePolicyBeforeCreation : String := "before-hook-creation"

def HookDeletePolicySucceeded : String := "hook-succeeded"

def HookDeletePolicyFailed : String := "hook-failed"

def HookOutputPolicySucceeded : String := "hook-succeeded"

def HookOutputPolicyFailed : String := "hook-failed"

def HookPhaseUnknown : String := "Unknown"

def HookPhaseRunning : String := "Running"

def HookPhaseSucceeded : String := "Succeeded"

def HookPhaseFailed : String := "Failed"

/-! ### Hook accessor operations (v1HookAccessor / v2HookAccessor; the two
method bodies are textually identical, so one definition embeds both) -/

/-- HasDeletePolicy: linear scan of the hook's delete policies for an exact
string match. -/
def HasDeletePolicy (h : Hook) (policy : String) : Bool :=
  h.deletePolicies.any (fun p => p == policy)

/-- HasEvent: linear scan of the hook's events for an exact string match. -/
def HasEvent (h : Hook) (event : String) : Bool :=
  h.events.any (fun e => e == event)

/-- SetDefaultDeletePolicy: if the hook has no delete policies, set the list
to the single policy before-hook-creation; otherwise leave the hook alone. -/
def SetDefaultDeletePolicy (h : Hook) : Hook :=
  if h.deletePolicies.length = 0 then
    { h with deletePolicies := [HookDeletePolicyBeforeCreation] }
  else
    h

/-! ### deleteHookByPolicyGeneric -/

/-- Outcomes of the Kubernetes client operations used by
deleteHookByPolicyGeneric, keyed by the manifest text they are built from
(the client builds the resource set from the hook's manifest). A `none`
result is success; Delete returns a list of errors. -/
structure DeleteOps where
  buildErr : String → Option String
  deleteErrs : String → List String
  getWaiterErr : Option String
  waitForDeleteErr : String → Option String

/-- Calls issued to the Kubernetes client by deleteHookByPolicyGeneric, in
order. -/
inductive DeleteCall where
  | build (manifest : String)
  | deleteResources (manifest : String)
  | getWaiter
  | waitForDelete (manifest : String)
deriving Repr, DecidableEq

/-- joinErrors with separator, as in the Go helper. -/
def joinErrors (errs : List String) (sep : String) : String :=
  String.intercalate sep errs

/-- deleteHookByPolicyGeneric: never deletes CustomResourceDefinitions; for
any other kind, when the hook carries the given policy it builds the resource
set, deletes it with background propagation, obtains a waiter and waits for
deletion, propagating the first error. Returns the error outcome and the
ordered list of client calls issued. -/
def deleteHookByPolicyGeneric (ops : DeleteOps) (h : Hook) (policy : String) :
    Option String × List DeleteCall :=
  if h.kind == "CustomResourceDefinition" then
    (none, [])
  else if HasDeletePolicy h policy then
    match ops.buildErr h.manifest with
    | some e =>
        (some ("unable to build kubernetes object for deleting hook " ++
          h.path ++ ": " ++ e), [.build h.manifest])
    | none =>
        if (ops.deleteErrs h.manifest).length > 0 then
          (some (joinErrors (ops.deleteErrs h.manifest) "; "),
            [.build h.manifest, .deleteResources h.manifest])
        else
          match ops.getWaiterErr with
          | some e =>
              (some e,
                [.build h.manifest, .deleteResources h.manifest, .getWaiter])
          | none =>
              match ops.waitForDeleteErr h.manifest with
              | some e =>
                  (some e,
                    [.build h.manifest, .deleteResources h.manifest,
                      .getWaiter, .waitForDelete h.manifest])
              | none =>
                  (none,
                    [.build h.manifest, .deleteResources h.manifest,
                      .getWaiter, .waitForDelete h.manifest])
  else
    (none, [])

/-! ### deriveNamespaceGeneric -/

/-- Target of the YAML unmarshal in deriveNamespaceGeneric: the
metadata.namespace field of the manifest. The Go zero value for a missing
field is the empty string. The Lean field is named nspace because the Go
field name Namespace collides with a Lean keyword. -/
structure YamlMetadata where
  nspace : String
deriving Repr, DecidableEq

/-- deriveNamespaceGeneric: unmarshal metadata.namespace out of the hook's
manifest text (the unmarshaller is an external collaborator, passed as a
function); an unparseable manifest is a wrapped error naming the hook's path;
an empty namespace falls back to the release namespace. -/
def deriveNamespaceGeneric (unmarshal : String → Except String YamlMetadata)
    (h : Hook) (releaseNamespace : String) : Except String String :=
  match unmarshal h.manifest with
  | .error e =>
      .error ("unable to parse metadata.namespace from kubernetes manifest " ++
        "for output logs hook " ++ h.path ++ ": " ++ e)
  | .ok tmp =>
      if tmp.nspace == "" then .ok releaseNamespace else .ok tmp.nspace

/-! ### Sorting (execHookCore lines 67-73)

The Go code calls sort.SliceStable with the comparator
  less i j := if weight i = weight j then name i < name j else weight i < weight j.
A stable sort with respect to a comparator is a unique function of the input
list, so we embed it as the stable insertion sort with the complementary
non-strict relation hookLe a b := not (less b a), which by totality of the
(weight, name) lexicographic order is: weight ascending, name ascending on
weight ties. Go compares strings lexicographically, as Lean's String order
does. -/

/-- Non-strict hook ordering used by the stable sort: weight ascending,
ties broken by name ascending. -/
def hookLe (a b : Hook) : Prop :=
  a.weight < b.weight ∨ (a.weight = b.weight ∧ a.name ≤ b.name)

instance hookLe.decRel : DecidableRel hookLe := fun a b =>
  decidable_of_iff
    (a.weight < b.weight ∨ (a.weight = b.weight ∧ a.name.toList ≤ b.name.toList))
    (by unfold hookLe; rw [String.le_iff_toList_le])

instance : IsTrans Hook hookLe := by
  constructor
  intro a b c hab hbc
  rcases hab with h1 | ⟨h1, h2⟩ <;> rcases hbc with h3 | ⟨h3, h4⟩
  · exact Or.inl (lt_trans h1 h3)
  · exact Or.inl (h3 ▸ h1)
  · exact Or.inl (h1 ▸ h3)
  · exact Or.inr ⟨h1.trans h3, le_trans h2 h4⟩

instance : IsTotal Hook hookLe := by
  constructor
  intro a b
  rcases lt_trichotomy a.weight b.weight with h | h | h
  · exact Or.inl (Or.inl h)
  · rcases le_total a.name b.name with h' | h'
    · exact Or.inl (Or.inr ⟨h, h'⟩)
    · exact Or.inr (Or.inr ⟨h.symm, h'⟩)
  · exact Or.inr (Or.inl h)

/-- The stable sort of the executing hooks (sort.SliceStable with the weight
then name comparator). -/
def sortHooks (hooks : List Hook) : List Hook :=
  hooks.insertionSort hookLe

/-! ### Hook selection (execHookWithDelayedShutdown /
execHookWithDelayedShutdownV3, identical selection loops) -/

/-- Inner loop of the selection: for each event of the hook, if it equals the
requested event, append the hook. -/
def hookEventOccurrences (h : Hook) (event : String) : List Hook :=
  h.events.filterMap (fun e => if e == event then some h else none)

/-- Outer loop of the selection over the release's hooks. -/
def selectExecutingHooks (hooks : List Hook) (event : String) : List Hook :=
  hooks.flatMap (fun h => hookEventOccurrences h event)

/-! ### execHookCore

The release-type-specific operations are passed as callbacks, exactly as in
the Go code (hookExecutionCallbacks); the Kubernetes client operations are an
environment of deterministic outcomes keyed by the manifest the resource set
is built from. Time is a Nat clock ticked at every time.Now() read. The two
deferred-cleanup closures and the no-op shutdown are defunctionalized into
ExecuteShutdownFunc; runShutdown embeds their bodies, returning the error
outcome and the ordered list of callback invocations, so ordering claims are
statable. recordRelease and the log-output calls have no effect on the
engine's state and are noted by comments where they occur. -/

/-- Callbacks holding the release-type-specific operations
(hookExecutionCallbacks). A callback outcome of none is success. -/
structure Callbacks where
  deleteByPolicy : Hook → String → Option String
  outputLogsByPolicy : Hook → String → Option String

/-- Outcomes of the Kubernetes client operations used by execHookCore,
keyed by the manifest text the resource set is built from. -/
structure KubeEnv where
  buildErr : String → Option String
  createErr : String → Option String
  getWaiterErr : Option String
  waitErr : String → Option String

/-- Calls made by the deferred cleanup functions, in order. -/
inductive CleanupCall where
  | deleteByPolicy (hookName : String) (policy : String)
  | outputLogs (hookName : String) (policy : String)
deriving Repr, DecidableEq

/-- The value returned by execHookCore in place of a Go closure: the no-op
shutdown, the failure-path cleanup closure (capturing the executing-hooks
slice, the failing index and the wait error), or the all-success cleanup
closure (capturing the executing-hooks slice). -/
inductive ExecuteShutdownFunc where
  | shutdownNoOp
  | failureCleanup (executingHooks : List Hook) (i : Nat) (waitError : String)
  | successCleanup (executingHooks : List Hook)
deriving Repr, DecidableEq

/-- Body of the failure-path cleanup loop over the previously successful
hooks, in forward order: delete each by the hook-succeeded policy and stop at
the first error, which is propagated. -/
def cleanupForward (cb : Callbacks) : List Hook → Option String × List CleanupCall
  | [] => (none, [])
  | h :: t =>
    match cb.deleteByPolicy h HookDeletePolicySucceeded with
    | some e => (some e, [.deleteByPolicy h.name HookDeletePolicySucceeded])
    | none =>
      let r := cleanupForward cb t
      (r.1, .deleteByPolicy h.name HookDeletePolicySucceeded :: r.2)

/-- Body of the all-success cleanup loop (already given the hooks in the
reversed processing order): best-effort output logs by the hook-succeeded
policy (the outcome is only logged), then delete by the hook-succeeded
policy, stopping at the first deletion error, which is propagated. -/
def cleanupReverse (cb : Callbacks) : List Hook → Option String × List CleanupCall
  | [] => (none, [])
  | h :: t =>
    match cb.deleteByPolicy h HookDeletePolicySucceeded with
    | some e =>
        (some e, [.outputLogs h.name HookOutputPolicySucceeded,
                  .deleteByPolicy h.name HookDeletePolicySucceeded])
    | none =>
      let r := cleanupReverse cb t
      (r.1, .outputLogs h.name HookOutputPolicySucceeded ::
        .deleteByPolicy h.name HookDeletePolicySucceeded :: r.2)

/-- Interpreter for the defunctionalized shutdown values; embeds the bodies
of the two closures returned by execHookCore. The failure-path closure first
deletes the failed hook per the hook-failed policy (outcome only logged, not
propagated), then runs the forward loop over the previously successful
hooks, and returns the first hard deletion error if any, else the captured
wait error. -/
def runShutdown (cb : Callbacks) : ExecuteShutdownFunc → Option String × List CleanupCall
  | .shutdownNoOp => (none, [])
  | .failureCleanup hooks i werr =>
    let h := hooks.getD i default
    let r := cleanupForward cb (hooks.take i)
    match r.1 with
    | some e => (some e, .deleteByPolicy h.name HookDeletePolicyFailed :: r.2)
    | none => (some werr, .deleteByPolicy h.name HookDeletePolicyFailed :: r.2)
  | .successCleanup hooks => cleanupReverse cb hooks.reverse

/-- Result of one execHookCore run: the final state of the executing-hooks
slice, the returned shutdown value, the returned error, and the clock. -/
structure ExecResult where
  hooks : List Hook
  shutdown : ExecuteShutdownFunc
  err : Option String
  clock : Nat
deriving Repr, DecidableEq

/-- The main loop of execHookCore over the sorted hooks. done holds the
already-processed prefix of the slice (its length is the Go loop index i);
the hook list is mutated in place in Go, so every exit returns the full
updated slice. -/
def execLoop (env : KubeEnv) (cb : Callbacks) (hookEvent : String) :
    List Hook → List Hook → Nat → ExecResult
  | done, [], clock => ⟨done, .successCleanup done, none, clock⟩
  | done, h0 :: rest, clock =>
    let h1 := SetDefaultDeletePolicy h0
    match cb.deleteByPolicy h1 HookDeletePolicyBeforeCreation with
    | some e => ⟨done ++ h1 :: rest, .shutdownNoOp, some e, clock⟩
    | none =>
      match env.buildErr h1.manifest with
      | some e =>
          ⟨done ++ h1 :: rest, .shutdownNoOp,
            some ("unable to build kubernetes object for " ++ hookEvent ++
              " hook " ++ h1.path ++ ": " ++ e), clock⟩
      | none =>
        -- SetLastRunStarted replaces the whole LastRun record (zero CompletedAt);
        -- recordRelease persists the snapshot and does not change engine state
        let h2 : Hook := { h1 with lastRun := ⟨clock, 0, HookPhaseRunning⟩ }
        let h3 : Hook := { h2 with lastRun := { h2.lastRun with phase := HookPhaseUnknown } }
        match env.createErr h3.manifest with
        | some e =>
            let h4 : Hook := { h3 with lastRun := { h3.lastRun with completedAt := clock + 1 } }
            let h5 : Hook := { h4 with lastRun := { h4.lastRun with phase := HookPhaseFailed } }
            ⟨done ++ h5 :: rest, .shutdownNoOp,
              some ("warning: Hook " ++ hookEvent ++ " " ++ h5.path ++ " failed: " ++ e),
              clock + 2⟩
        | none =>
          match env.getWaiterErr with
          | some e =>
              ⟨done ++ h3 :: rest, .shutdownNoOp,
                some ("unable to get waiter: " ++ e), clock + 1⟩
          | none =>
            let h4 : Hook := { h3 with lastRun := { h3.lastRun with completedAt := clock + 1 } }
            match env.waitErr h4.manifest with
            | some e =>
                let h5 : Hook := { h4 with lastRun := { h4.lastRun with phase := HookPhaseFailed } }
                -- output logs per the hook-failed policy; outcome only logged
                ⟨done ++ h5 :: rest, .failureCleanup (done ++ h5 :: rest) done.length e,
                  some e, clock + 2⟩
            | none =>
                let h5 : Hook := { h4 with lastRun := { h4.lastRun with phase := HookPhaseSucceeded } }
                execLoop env cb hookEvent (done ++ [h5]) rest (clock + 2)

/-- execHookCore: stable-sort the hooks by (weight, name) and run the loop. -/
def execHookCore (env : KubeEnv) (cb : Callbacks) (executingHooks : List Hook)
    (hookEvent : String) (clock : Nat) : ExecResult :=
  execLoop env cb hookEvent [] (sortHooks executingHooks) clock

/-- First hard deletion error produced by deleting the given hooks in order
by the hook-succeeded policy. -/
def firstDeleteError (cb : Callbacks) (hs : List Hook) : Option String :=
  hs.findSome? (fun h => cb.deleteByPolicy h HookDeletePolicySucceeded)

/-- Index of the first hook whose hook-succeeded deletion fails (the list
length when none fails). -/
def firstDeleteErrIdx (cb : Callbacks) (hs : List Hook) : Nat :=
  hs.findIdx (fun h => (cb.deleteByPolicy h HookDeletePolicySucceeded).isSome)

/-- State of a hook whose pass failed at creation or at the readiness wait,
the start time.Now() read having returned c: started at c, completed at
c + 1, phase Failed. -/
def failHook (c : Nat) (h : Hook) : Hook :=
  { SetDefaultDeletePolicy h with lastRun := ⟨c, c + 1, HookPhaseFailed⟩ }

/-! ### Fully-successful step and prefix lemma -/

/-- Conditions under which one hook gets through pre-delete, build, create
and waiter acquisition. -/
def stepOK (env : KubeEnv) (cb : Callbacks) (h : Hook) : Prop :=
  cb.deleteByPolicy (SetDefaultDeletePolicy h) HookDeletePolicyBeforeCreation = none ∧
  env.buildErr h.manifest = none ∧
  env.createErr h.manifest = none ∧
  env.getWaiterErr = none

instance (env : KubeEnv) (cb : Callbacks) (h : Hook) : Decidable (stepOK env cb h) :=
  inferInstanceAs (Decidable (_ ∧ _ ∧ _ ∧ _))

/-- State of a hook after a fully successful pass whose start time.Now()
read the clock value c. -/
def succHook (c : Nat) (h : Hook) : Hook :=
  { SetDefaultDeletePolicy h with lastRun := ⟨c, c + 1, HookPhaseSucceeded⟩ }

/-- States of a list of hooks after consecutive fully successful passes
starting at clock value c (each pass consumes two clock ticks). -/
def succList : Nat → List Hook → List Hook
  | _, [] => []
  | c, h :: t => succHook c h :: succList (c + 2) t

/-! ### Dependency graph scheduler (subchart sequencing) -/

/-- Modelled from the spec: the DependencyGraphNode of the dependency graph
scheduler (one sub-unit: its name and the set of names it depends on); the
GetInstallationBatches implementation is absent from the sources (the plan
document leaves its body as pseudocode), so the node type and the batching
algorithm are taken from the spec's data model and algorithm sections. -/
structure DependencyGraphNode where
  name : String
  dependsOn : List String
deriving Repr, DecidableEq

/-- Modelled from the spec: a node is isolated when it has no incoming and no
outgoing edges, that is, it depends on nothing and no node depends on it. -/
def isIsolated (nodes : List DependencyGraphNode) (n : DependencyGraphNode) : Bool :=
  n.dependsOn.isEmpty &&
    !(nodes.any (fun m => m.dependsOn.any (fun d => d == n.name)))

/-- Modelled from the spec: a node is ready when every name it depends on has
already been placed in an earlier tier. -/
def readyNode (placed : List String) (n : DependencyGraphNode) : Bool :=
  n.dependsOn.all (fun d => placed.contains d)

/-- Modelled from the spec: iterative peeling — repeatedly extract the set of
nodes whose predecessors have all been placed in an earlier tier. Fuel bounds
the iteration (the node count suffices for an acyclic graph); a step on which
no node is ready (a cycle, rejected before scheduling) stops the peeling. -/
def peelTiers : Nat → List String → List DependencyGraphNode → List (List String)
  | 0, _, _ => []
  | fuel + 1, placed, remaining =>
    match remaining with
    | [] => []
    | r :: rs =>
      let ready := (r :: rs).filter (readyNode placed)
      if ready.isEmpty then []
      else
        ready.map (fun n => n.name) ::
          peelTiers fuel (placed ++ ready.map (fun n => n.name))
            ((r :: rs).filter (fun n => !(readyNode placed n)))

/-- Modelled from the spec: GetInstallationBatches — isolated nodes are
excluded from the peeling and appended, instead, to a trailing tier alongside
the owning chart's own resources (represented by the owner's name). -/
def GetInstallationBatches (owner : String) (nodes : List DependencyGraphNode) :
    List (List String) :=
  let iso := nodes.filter (fun n => isIsolated nodes n)
  let nonIso := nodes.filter (fun n => !(isIsolated nodes n))
  peelTiers nodes.length [] nonIso ++ [iso.map (fun n => n.name) ++ [owner]]

def nginxNode : DependencyGraphNode := ⟨"nginx", []⟩

def rabbitmqNode : DependencyGraphNode := ⟨"rabbitmq", []⟩

def barNode : DependencyGraphNode := ⟨"bar", ["nginx", "rabbitmq"]⟩

def orphanedNode : DependencyGraphNode := ⟨"orphaned", []⟩

/-- Subcharts of the owning chart foo in the spec's example. -/
def exampleNodes : List DependencyGraphNode :=
  [nginxNode, rabbitmqNode, barNode, orphanedNode]

/-! ### Concrete sample data used by witnesses and examples -/

def hookA : Hook :=
  ⟨"b", "templates/a.yaml", "Job", "manifest-a", 1, ["pre-install"], [], [],
    ⟨0, 0, "Unknown"⟩⟩

def hookB : Hook :=
  ⟨"a", "templates/b.yaml", "Job", "manifest-b", 1, ["pre-install"], [], [],
    ⟨0, 0, "Unknown"⟩⟩

def hookC : Hook :=
  ⟨"c", "templates/c.yaml", "Job", "manifest-c", 2, ["pre-install"], [], [],
    ⟨0, 0, "Unknown"⟩⟩

/-- Hook whose event list mentions the same event twice. -/
def hookDup : Hook :=
  ⟨"dup", "templates/dup.yaml", "Job", "manifest-dup", 0,
    ["pre-install", "pre-install"], [], [], ⟨0, 0, "Unknown"⟩⟩

/-- Hook of kind CustomResourceDefinition with a delete policy set. -/
def crdHook : Hook :=
  ⟨"crd", "templates/crd.yaml", "CustomResourceDefinition", "manifest-crd", 0,
    ["pre-install"], ["hook-failed"], [], ⟨0, 0, "Unknown"⟩⟩

/-- Delete-operation environment in which every client call succeeds. -/
def sampleDeleteOps : DeleteOps :=
  ⟨fun _ => none, fun _ => [], none, fun _ => none⟩

def okFooUnmarshal : String → Except String YamlMetadata := fun _ => .ok ⟨"foo"⟩

def okEmptyUnmarshal : String → Except String YamlMetadata := fun _ => .ok ⟨""⟩

def errUnmarshal : String → Except String YamlMetadata := fun _ => .error "bad yaml"

/-- Callbacks in which every delete and log-output call succeeds. -/
def allOkCb : Callbacks := ⟨fun _ _ => none, fun _ _ => none⟩

/-- Client environment in which every operation succeeds. -/
def allOkEnv : KubeEnv := ⟨fun _ => none, fun _ => none, none, fun _ => none⟩

/-- Client environment in which only the readiness wait on hookA's manifest
fails. -/
def waitFailEnv : KubeEnv :=
  ⟨fun _ => none, fun _ => none, none,
    fun m => if m == "manifest-a" then some "watch failed" else none⟩

/-- Client environment in which only creation of hookA's resources fails. -/
def createFailEnv : KubeEnv :=
  ⟨fun _ => none,
    fun m => if m == "manifest-a" then some "create failed" else none,
    none, fun _ => none⟩

/-- Client environment in which only the build of hookA's manifest fails. -/
def buildFailEnv : KubeEnv :=
  ⟨fun m => if m == "manifest-a" then some "build failed" else none,
    fun _ => none, none, fun _ => none⟩

@[simp] theorem manifest_SetDefaultDeletePolicy (h : Hook) :
    (SetDefaultDeletePolicy h).manifest = h.manifest := by
  unfold SetDefaultDeletePolicy; split <;> rfl

@[simp] theorem name_SetDefaultDeletePolicy (h : Hook) :
    (SetDefaultDeletePolicy h).name = h.name := by
  unfold SetDefaultDeletePolicy; split <;> rfl

@[simp] theorem path_SetDefaultDeletePolicy (h : Hook) :
    (SetDefaultDeletePolicy h).path = h.path := by
  unfold SetDefaultDeletePolicy; split <;> rfl

@[simp] theorem kind_SetDefaultDeletePolicy (h : Hook) :
    (SetDefaultDeletePolicy h).kind = h.kind := by
  unfold SetDefaultDeletePolicy; split <;> rfl

@[simp] theorem lastRun_SetDefaultDeletePolicy (h : Hook) :
    (SetDefaultDeletePolicy h).lastRun = h.lastRun := by
  unfold SetDefaultDeletePolicy; split <;> rfl

/-- Stability of sortHooks: the subsequence of hooks satisfying a predicate
whose holders are mutually hookLe-comparable is preserved verbatim. -/
theorem sortHooks_filter_eq (p : Hook → Bool)
    (hp : ∀ a b : Hook, p a = true → p b = true → hookLe a b) (l : List Hook) :
    (sortHooks l).filter p = l.filter p := by
  have hc : List.Sublist (l.filter p) l := List.filter_sublist l
  have hmem : ∀ a ∈ l.filter p, p a = true := fun a ha => (List.mem_filter.mp ha).2
  have hpair : (l.filter p).Pairwise hookLe :=
    List.pairwise_of_forall_mem_list fun a ha b hb => hp a b (hmem a ha) (hmem b hb)
  have hsub : List.Sublist (l.filter p) (sortHooks l) := List.sublist_insertionSort hpair hc
  have hself : (l.filter p).filter p = l.filter p := List.filter_eq_self.mpr hmem
  have hsub2 : List.Sublist (l.filter p) ((sortHooks l).filter p) := hself ▸ hsub.filter p
  have hperm : List.Perm ((sortHooks l).filter p) (l.filter p) :=
    (List.perm_insertionSort hookLe l).filter p
  exact (hsub2.eq_of_length hperm.length_eq.symm).symm

/-! ### Cleanup-loop characterizations -/

theorem cleanupForward_eq (cb : Callbacks) (hs : List Hook) :
    cleanupForward cb hs =
      (firstDeleteError cb hs,
        (hs.take (firstDeleteErrIdx cb hs + 1)).map
          (fun h => CleanupCall.deleteByPolicy h.name HookDeletePolicySucceeded)) := by
  induction hs with
  | nil => rfl
  | cons h t ih =>
    simp only [cleanupForward, firstDeleteError, firstDeleteErrIdx,
      List.findSome?_cons, List.findIdx_cons] at *
    cases hdel : cb.deleteByPolicy h HookDeletePolicySucceeded with
    | some e => simp [hdel]
    | none => simp [hdel, ih, List.take_succ_cons]

theorem cleanupReverse_eq (cb : Callbacks) (hs : List Hook) :
    cleanupReverse cb hs =
      (firstDeleteError cb hs,
        (hs.take (firstDeleteErrIdx cb hs + 1)).flatMap
          (fun h => [CleanupCall.outputLogs h.name HookOutputPolicySucceeded,
                     CleanupCall.deleteByPolicy h.name HookDeletePolicySucceeded])) := by
  induction hs with
  | nil => rfl
  | cons h t ih =>
    simp only [cleanupReverse, firstDeleteError, firstDeleteErrIdx,
      List.findSome?_cons, List.findIdx_cons] at *
    cases hdel : cb.deleteByPolicy h HookDeletePolicySucceeded with
    | some e => simp [hdel]
    | none => simp [hdel, ih, List.take_succ_cons]

@[simp] theorem succList_nil (c : Nat) : succList c [] = [] := rfl

@[simp] theorem succList_cons (c : Nat) (h : Hook) (t : List Hook) :
    succList c (h :: t) = succHook c h :: succList (c + 2) t := rfl

@[simp] theorem succList_length (c : Nat) (l : List Hook) :
    (succList c l).length = l.length := by
  induction l generalizing c with
  | nil => rfl
  | cons h t ih => simp [ih]

@[simp] theorem name_succHook (c : Nat) (h : Hook) : (succHook c h).name = h.name := by
  simp [succHook]

@[simp] theorem phase_succHook (c : Nat) (h : Hook) :
    (succHook c h).lastRun.phase = HookPhaseSucceeded := rfl

theorem succList_map_name (c : Nat) (l : List Hook) :
    (succList c l).map Hook.name = l.map Hook.name := by
  induction l generalizing c with
  | nil => rfl
  | cons h t ih => simp [ih]

theorem succList_phase (c : Nat) (l : List Hook) :
    ∀ h ∈ succList c l, h.lastRun.phase = HookPhaseSucceeded := by
  induction l generalizing c with
  | nil => intro h hm; cases hm
  | cons h0 t ih =>
    intro h hm
    rcases List.mem_cons.mp hm with rfl | hm
    · rfl
    · exact ih (c + 2) h hm

/-- Processing a prefix of fully successful hooks advances the loop past
them, leaving their success states in the done accumulator. -/
theorem execLoop_advance (env : KubeEnv) (cb : Callbacks) (hookEvent : String)
    (pre : List Hook)
    (hpre : ∀ h ∈ pre, stepOK env cb h ∧ env.waitErr h.manifest = none) :
    ∀ (done rest : List Hook) (clock : Nat),
    execLoop env cb hookEvent done (pre ++ rest) clock
      = execLoop env cb hookEvent (done ++ succList clock pre) rest
          (clock + 2 * pre.length) := by
  induction pre with
  | nil => intro done rest clock; simp
  | cons h t ih =>
    intro done rest clock
    obtain ⟨⟨hdel, hbuild, hcreate, hwaiter⟩, hwait⟩ :=
      hpre h (List.mem_cons_self h t)
    have ht : ∀ h' ∈ t, stepOK env cb h' ∧ env.waitErr h'.manifest = none :=
      fun h' hm => hpre h' (List.mem_cons_of_mem h hm)
    have hstep : execLoop env cb hookEvent done ((h :: t) ++ rest) clock
        = execLoop env cb hookEvent (done ++ [succHook clock h]) (t ++ rest) (clock + 2) := by
      simp only [List.cons_append, execLoop, manifest_SetDefaultDeletePolicy,
        hdel, hbuild, hcreate, hwaiter, hwait, succHook, List.append_eq]
    rw [hstep, ih ht (done ++ [succHook clock h]) rest (clock + 2)]
    have hclock : clock + 2 + 2 * t.length = clock + 2 * (t.length + 1) := by omega
    rw [List.append_assoc]
    simp [hclock]

/-! ### Selection count lemma -/

/-- The selection inner loop appends the hook once per occurrence of the
event in its declared event list. -/
theorem hookEventOccurrences_eq (h : Hook) (event : String) :
    hookEventOccurrences h event = List.replicate (h.events.count event) h := by
  unfold hookEventOccurrences
  induction h.events with
  | nil => rfl
  | cons e es ih =>
    simp only [List.filterMap_cons, List.count_cons]
    by_cases he : e = event
    · subst he; simp [List.replicate_succ]; simpa using ih
    · simp [he]; simpa using ih

/-! ### Claim theorems (stand-alone claims) -/

/-- C2: execHookCore stable-sorts the hooks and executes them in that order:
the sorted list is ordered by weight ascending with ties broken by name
ascending, is a permutation of the input, preserves the pre-existing relative
order of hooks agreeing on both weight and name, leaves an already sorted
list unchanged, and on hooks A(weight 1, name "b"), B(weight 1, name "a"),
C(weight 2) produces the order B, A, C. -/
theorem spec_C2 (hooks : List Hook) :
    List.Pairwise hookLe (sortHooks hooks) ∧
    List.Perm (sortHooks hooks) hooks ∧
    (∀ (w : Int) (n : String),
      (sortHooks hooks).filter (fun h => h.weight == w && h.name == n)
        = hooks.filter (fun h => h.weight == w && h.name == n)) ∧
    (List.Pairwise hookLe hooks → sortHooks hooks = hooks) ∧
    sortHooks [hookA, hookB, hookC] = [hookB, hookA, hookC] := by
  refine ⟨List.sorted_insertionSort hookLe hooks,
    List.perm_insertionSort hookLe hooks, ?_, ?_, ?_⟩
  · intro w n
    apply sortHooks_filter_eq
    intro a b ha hb
    simp only [Bool.and_eq_true, beq_iff_eq] at ha hb
    exact Or.inr ⟨ha.1.trans hb.1.symm, le_of_eq (ha.2.trans hb.2.symm)⟩
  · intro hsorted
    exact List.Sorted.insertionSort_eq hsorted
  · decide

/-- C2 witness: a concrete already-sorted list is a fixed point of the
sort. -/
theorem spec_C2_witness :
    List.Pairwise hookLe [hookB, hookA, hookC] ∧
    sortHooks [hookB, hookA, hookC] = [hookB, hookA, hookC] :=
  ⟨by decide, (spec_C2 [hookB, hookA, hookC]).2.2.2.1 (by decide)⟩

/-- C4: deleteHookByPolicyGeneric on a hook of kind CustomResourceDefinition
is a no-op for every delete policy and every client environment: it returns
no error and issues no client calls. -/
theorem spec_C4 (ops : DeleteOps) (h : Hook) (policy : String)
    (hk : h.kind = "CustomResourceDefinition") :
    deleteHookByPolicyGeneric ops h policy = (none, []) := by
  unfold deleteHookByPolicyGeneric
  simp [hk]

/-- C4 witness: concrete CustomResourceDefinition hook carrying the
hook-failed delete policy, in the all-success client environment. -/
theorem spec_C4_witness :
    crdHook.kind = "CustomResourceDefinition" ∧
    HasDeletePolicy crdHook HookDeletePolicyFailed = true ∧
    deleteHookByPolicyGeneric sampleDeleteOps crdHook HookDeletePolicyFailed
      = (none, []) :=
  ⟨rfl, by decide, spec_C4 sampleDeleteOps crdHook HookDeletePolicyFailed rfl⟩

/-- C8: SetDefaultDeletePolicy turns an empty delete-policy set into exactly
the singleton before-hook-creation, leaves a non-empty set unchanged, and is
idempotent. -/
theorem spec_C8 (h : Hook) :
    (h.deletePolicies = [] →
      (SetDefaultDeletePolicy h).deletePolicies = [HookDeletePolicyBeforeCreation]) ∧
    (h.deletePolicies ≠ [] → SetDefaultDeletePolicy h = h) ∧
    SetDefaultDeletePolicy (SetDefaultDeletePolicy h) = SetDefaultDeletePolicy h := by
  unfold SetDefaultDeletePolicy
  rcases h with ⟨n, p, k, m, w, ev, dp, op, lr⟩
  cases dp <;> simp

/-- C8 witness: a hook with no delete policy gets exactly
before-hook-creation; a hook with a policy is unchanged. -/
theorem spec_C8_witness :
    hookA.deletePolicies = [] ∧
    (SetDefaultDeletePolicy hookA).deletePolicies = [HookDeletePolicyBeforeCreation] ∧
    crdHook.deletePolicies ≠ [] ∧
    SetDefaultDeletePolicy crdHook = crdHook :=
  ⟨rfl, (spec_C8 hookA).1 rfl, by decide, (spec_C8 crdHook).2.1 (by decide)⟩

/-- C9: namespace derivation parses metadata.namespace from the hook's own
manifest: a manifest whose parse yields a non-empty namespace resolves to
that namespace, a parseable manifest with no namespace field (Go zero value,
the empty string) resolves to the release namespace, and a parse failure is
an error naming the hook's path. -/
theorem spec_C9 (unmarshal : String → Except String YamlMetadata) (h : Hook)
    (releaseNamespace : String) :
    (∀ ns : String, unmarshal h.manifest = .ok ⟨ns⟩ → ns ≠ "" →
      deriveNamespaceGeneric unmarshal h releaseNamespace = .ok ns) ∧
    (unmarshal h.manifest = .ok ⟨""⟩ →
      deriveNamespaceGeneric unmarshal h releaseNamespace = .ok releaseNamespace) ∧
    (∀ e : String, unmarshal h.manifest = .error e →
      deriveNamespaceGeneric unmarshal h releaseNamespace =
        .error ("unable to parse metadata.namespace from kubernetes manifest " ++
          "for output logs hook " ++ h.path ++ ": " ++ e)) := by
  refine ⟨?_, ?_, ?_⟩
  · intro ns hok hne
    unfold deriveNamespaceGeneric
    rw [hok]
    simp [hne]
  · intro hok
    unfold deriveNamespaceGeneric
    rw [hok]
    simp
  · intro e herr
    unfold deriveNamespaceGeneric
    rw [herr]

/-- C9 witness: concrete unmarshal outcomes on a concrete hook. -/
theorem spec_C9_witness :
    deriveNamespaceGeneric okFooUnmarshal hookA "rel-ns" = .ok "foo" ∧
    deriveNamespaceGeneric okEmptyUnmarshal hookA "rel-ns" = .ok "rel-ns" ∧
    deriveNamespaceGeneric errUnmarshal hookA "rel-ns" =
      .error ("unable to parse metadata.namespace from kubernetes manifest " ++
        "for output logs hook " ++ hookA.path ++ ": " ++ "bad yaml") :=
  ⟨(spec_C9 okFooUnmarshal hookA "rel-ns").1 "foo" rfl (by decide),
   (spec_C9 okEmptyUnmarshal hookA "rel-ns").2.1 rfl,
   (spec_C9 errUnmarshal hookA "rel-ns").2.2 "bad yaml" rfl⟩

/-- C10 counterexample: the selection loop has no break, so a hook whose
declared event list mentions the event twice is selected twice, refuting the
claim that each hook bound to the event is selected exactly once even when
the event appears more than once in its event list. -/
theorem spec_C10_counterexample :
    HasEvent hookDup "pre-install" = true ∧
    (selectExecutingHooks [hookDup] "pre-install").length = 2 ∧
    ¬ (selectExecutingHooks [hookDup] "pre-install").length = 1 := by
  refine ⟨by decide, by decide, by decide⟩

/-- C10 (amended): execute selects each hook once per occurrence of the
event in the hook's declared event list; in particular, when no hook lists
the event more than once, the selection contains exactly one entry per hook
whose event set contains the event. -/
theorem spec_C10 (hooks : List Hook) (event : String) :
    selectExecutingHooks hooks event
      = hooks.flatMap (fun h => List.replicate (h.events.count event) h) ∧
    ((∀ h ∈ hooks, h.events.count event ≤ 1) →
      selectExecutingHooks hooks event
        = hooks.filter (fun h => HasEvent h event)) := by
  constructor
  · simp only [selectExecutingHooks, hookEventOccurrences_eq]
  · intro hcnt
    induction hooks with
    | nil => rfl
    | cons h t ih =>
      have hh := hcnt h (List.mem_cons_self h t)
      have ht : ∀ h' ∈ t, h'.events.count event ≤ 1 :=
        fun h' hm => hcnt h' (List.mem_cons_of_mem h hm)
      have hrec := ih ht
      simp only [selectExecutingHooks, List.flatMap_cons] at hrec ⊢
      rw [hookEventOccurrences_eq, List.filter_cons]
      interval_cases hc : h.events.count event
      · have hnotmem : event ∉ h.events := List.count_eq_zero.mp hc
        have hev : HasEvent h event = false := by
          simp only [HasEvent, List.any_eq_true, beq_iff_eq, not_exists] at *
          simp only [Bool.eq_false_iff, ne_eq, List.any_eq_true, beq_iff_eq]
          rintro ⟨e, he, rfl⟩
          exact hnotmem he
        simp [hev, hrec]
      · have hmem : event ∈ h.events := by
          have : 0 < h.events.count event := by omega
          exact List.count_pos_iff.mp this
        have hev : HasEvent h event = true := by
          simp only [HasEvent, List.any_eq_true, beq_iff_eq]
          exact ⟨event, hmem, rfl⟩
        simp [hev, hrec]

/-- C10 witness: with single-occurrence event lists, selection is exactly the
hooks bound to the event. -/
theorem spec_C10_witness :
    (∀ h ∈ [hookA, hookC], h.events.count "pre-install" ≤ 1) ∧
    selectExecutingHooks [hookA, hookC] "pre-install"
      = List.filter (fun h => HasEvent h "pre-install") [hookA, hookC] :=
  ⟨by decide, (spec_C10 [hookA, hookC] "pre-install").2 (by decide)⟩

/-! ### One-step unfolding lemmas for execLoop and list extraction helpers -/

@[simp] theorem name_failHook (c : Nat) (h : Hook) : (failHook c h).name = h.name := by
  simp [failHook]

@[simp] theorem path_failHook (c : Nat) (h : Hook) : (failHook c h).path = h.path := by
  simp [failHook]

@[simp] theorem lastRun_failHook (c : Nat) (h : Hook) :
    (failHook c h).lastRun = ⟨c, c + 1, HookPhaseFailed⟩ := rfl

theorem execLoop_wait_fail (env : KubeEnv) (cb : Callbacks) (hookEvent : String)
    (done rest : List Hook) (clock : Nat) (h : Hook) (werr : String)
    (hstep : stepOK env cb h) (hfail : env.waitErr h.manifest = some werr) :
    execLoop env cb hookEvent done (h :: rest) clock
      = ⟨done ++ failHook clock h :: rest,
         .failureCleanup (done ++ failHook clock h :: rest) done.length werr,
         some werr, clock + 2⟩ := by
  obtain ⟨hdel, hbuild, hcreate, hwaiter⟩ := hstep
  simp only [execLoop, manifest_SetDefaultDeletePolicy, hdel, hbuild, hcreate,
    hwaiter, hfail, failHook]

theorem execLoop_create_fail (env : KubeEnv) (cb : Callbacks) (hookEvent : String)
    (done rest : List Hook) (clock : Nat) (h : Hook) (e : String)
    (hdel : cb.deleteByPolicy (SetDefaultDeletePolicy h) HookDeletePolicyBeforeCreation = none)
    (hbuild : env.buildErr h.manifest = none)
    (hcreate : env.createErr h.manifest = some e) :
    execLoop env cb hookEvent done (h :: rest) clock
      = ⟨done ++ failHook clock h :: rest, .shutdownNoOp,
         some ("warning: Hook " ++ hookEvent ++ " " ++ h.path ++ " failed: " ++ e),
         clock + 2⟩ := by
  simp only [execLoop, manifest_SetDefaultDeletePolicy, path_SetDefaultDeletePolicy,
    hdel, hbuild, hcreate, failHook]

theorem execLoop_build_fail (env : KubeEnv) (cb : Callbacks) (hookEvent : String)
    (done rest : List Hook) (clock : Nat) (h : Hook) (e : String)
    (hdel : cb.deleteByPolicy (SetDefaultDeletePolicy h) HookDeletePolicyBeforeCreation = none)
    (hbuild : env.buildErr h.manifest = some e) :
    execLoop env cb hookEvent done (h :: rest) clock
      = ⟨done ++ SetDefaultDeletePolicy h :: rest, .shutdownNoOp,
         some ("unable to build kubernetes object for " ++ hookEvent ++
           " hook " ++ h.path ++ ": " ++ e), clock⟩ := by
  simp only [execLoop, manifest_SetDefaultDeletePolicy, path_SetDefaultDeletePolicy,
    hdel, hbuild]

theorem append_cons_take (l1 : List Hook) (x : Hook) (l2 : List Hook) :
    (l1 ++ x :: l2).take l1.length = l1 := by
  induction l1 with
  | nil => rfl
  | cons a t ih => simp [ih]

theorem append_cons_getD (l1 : List Hook) (x : Hook) (l2 : List Hook) :
    (l1 ++ x :: l2).getD l1.length default = x := by
  induction l1 with
  | nil => rfl
  | cons a t ih => simpa using ih


theorem append_cons_drop (l1 : List Hook) (x : Hook) (l2 : List Hook) :
    (l1 ++ x :: l2).drop (l1.length + 1) = l2 := by
  induction l1 with
  | nil => rfl
  | cons a t ih => simpa using ih

theorem take_getD_drop (l : List Hook) (i : Nat) (hi : i < l.length) :
    l = l.take i ++ l.getD i default :: l.drop (i + 1) := by
  conv_lhs => rw [← List.take_append_drop i l]
  congr 1
  rw [List.getD_eq_getElem l default hi]
  exact List.drop_eq_getElem_cons hi

theorem length_take_of_lt (l : List Hook) (i : Nat) (hi : i < l.length) :
    (l.take i).length = i := by
  simp [List.length_take, Nat.min_eq_left (le_of_lt hi)]

/-- C1: when hook i fails its readiness wait after a fully successful prefix,
execHookCore returns the wait error and the failure-path cleanup closure over
the final slice at index i; the hooks after i are left untouched (they never
execute); invoking the cleanup first deletes hook i's resource per the
hook-failed policy, then deletes hooks 0..i-1 in original forward order per
the hook-succeeded policy up to and including the first hard deletion error,
returning that error if any and the original wait error otherwise. -/
theorem spec_C1 (env : KubeEnv) (cb : Callbacks) (hooks : List Hook)
    (hookEvent : String) (clock i : Nat) (werr : String) (r : ExecResult)
    (hr : r = execHookCore env cb hooks hookEvent clock)
    (hi : i < (sortHooks hooks).length)
    (hpre : ∀ h ∈ (sortHooks hooks).take i,
      stepOK env cb h ∧ env.waitErr h.manifest = none)
    (hstep : stepOK env cb ((sortHooks hooks).getD i default))
    (hfail : env.waitErr ((sortHooks hooks).getD i default).manifest = some werr) :
    r.err = some werr ∧
    r.shutdown = ExecuteShutdownFunc.failureCleanup r.hooks i werr ∧
    r.hooks.drop (i + 1) = (sortHooks hooks).drop (i + 1) ∧
    (r.hooks.getD i default).name = ((sortHooks hooks).getD i default).name ∧
    (r.hooks.getD i default).lastRun.phase = HookPhaseFailed ∧
    (r.hooks.take i).map Hook.name = ((sortHooks hooks).take i).map Hook.name ∧
    runShutdown cb r.shutdown
      = (some ((firstDeleteError cb (r.hooks.take i)).getD werr),
         CleanupCall.deleteByPolicy (r.hooks.getD i default).name HookDeletePolicyFailed ::
           ((r.hooks.take i).take (firstDeleteErrIdx cb (r.hooks.take i) + 1)).map
             (fun h => CleanupCall.deleteByPolicy h.name HookDeletePolicySucceeded)) := by
  have hlenpre := length_take_of_lt (sortHooks hooks) i hi
  have hlensucc : (succList clock ((sortHooks hooks).take i)).length = i := by
    simp [hlenpre]
  have hexec : r = ⟨succList clock ((sortHooks hooks).take i) ++
        failHook (clock + 2 * i) ((sortHooks hooks).getD i default) ::
          (sortHooks hooks).drop (i + 1),
      .failureCleanup
        (succList clock ((sortHooks hooks).take i) ++
          failHook (clock + 2 * i) ((sortHooks hooks).getD i default) ::
            (sortHooks hooks).drop (i + 1)) i werr,
      some werr, clock + 2 * i + 2⟩ := by
    rw [hr]
    unfold execHookCore
    conv_lhs => rw [take_getD_drop (sortHooks hooks) i hi]
    rw [execLoop_advance env cb hookEvent _ hpre [] _ clock]
    rw [execLoop_wait_fail env cb hookEvent _ _ _ _ werr hstep hfail]
    rw [List.nil_append, hlensucc, hlenpre]
  have htake : r.hooks.take i = succList clock ((sortHooks hooks).take i) := by
    rw [hexec]
    simpa [hlensucc] using append_cons_take (succList clock ((sortHooks hooks).take i)) _ _
  have hgetD : r.hooks.getD i default
      = failHook (clock + 2 * i) ((sortHooks hooks).getD i default) := by
    rw [hexec]
    simpa [hlensucc] using append_cons_getD (succList clock ((sortHooks hooks).take i)) _ _
  refine ⟨by rw [hexec], by rw [hexec], ?_, ?_, ?_, ?_, ?_⟩
  · rw [hexec]
    simpa [hlensucc] using append_cons_drop (succList clock ((sortHooks hooks).take i)) _ _
  · rw [hgetD]; simp
  · rw [hgetD]; simp
  · rw [htake]; exact succList_map_name clock _
  · rw [hexec]
    simp only [runShutdown, cleanupForward_eq]
    rw [show (succList clock ((sortHooks hooks).take i) ++
          failHook (clock + 2 * i) ((sortHooks hooks).getD i default) ::
            (sortHooks hooks).drop (i + 1)).take i
        = succList clock ((sortHooks hooks).take i) from by
      simpa [hlensucc] using append_cons_take (succList clock ((sortHooks hooks).take i)) _ _]
    rw [show (succList clock ((sortHooks hooks).take i) ++
          failHook (clock + 2 * i) ((sortHooks hooks).getD i default) ::
            (sortHooks hooks).drop (i + 1)).getD i default
        = failHook (clock + 2 * i) ((sortHooks hooks).getD i default) from by
      simpa [hlensucc] using append_cons_getD (succList clock ((sortHooks hooks).take i)) _ _]
    cases hfe : firstDeleteError cb (succList clock ((sortHooks hooks).take i)) <;>
      simp [hfe]

/-- C1 witness: two hooks, the second (hookA, after sorting) failing its
readiness wait; the engine returns the wait error. -/
theorem spec_C1_witness :
    (1 < (sortHooks [hookA, hookB]).length ∧
     waitFailEnv.waitErr ((sortHooks [hookA, hookB]).getD 1 default).manifest
       = some "watch failed") ∧
    (execHookCore waitFailEnv allOkCb [hookA, hookB] "pre-install" 0).err
      = some "watch failed" :=
  ⟨⟨by decide, by decide⟩,
   (spec_C1 waitFailEnv allOkCb [hookA, hookB] "pre-install" 0 1 "watch failed"
      _ rfl (by decide) (by decide) (by decide) (by decide)).1⟩

/-- C3: when every hook passes, execHookCore returns no error and the
all-success cleanup closure over the final slice (every executed hook in
phase Succeeded, in sorted order); invoking it walks the hooks in reverse
order, for each hook best-effort emitting the hook-succeeded log output and
then deleting it per the hook-succeeded policy, stopping at and returning
the first hard deletion error, else no error. -/
theorem spec_C3 (env : KubeEnv) (cb : Callbacks) (hooks : List Hook)
    (hookEvent : String) (clock : Nat) (r : ExecResult)
    (hr : r = execHookCore env cb hooks hookEvent clock)
    (hall : ∀ h ∈ sortHooks hooks, stepOK env cb h ∧ env.waitErr h.manifest = none) :
    r.err = none ∧
    r.shutdown = ExecuteShutdownFunc.successCleanup r.hooks ∧
    r.hooks.map Hook.name = (sortHooks hooks).map Hook.name ∧
    (∀ h ∈ r.hooks, h.lastRun.phase = HookPhaseSucceeded) ∧
    runShutdown cb r.shutdown
      = (firstDeleteError cb r.hooks.reverse,
         (r.hooks.reverse.take (firstDeleteErrIdx cb r.hooks.reverse + 1)).flatMap
           (fun h => [CleanupCall.outputLogs h.name HookOutputPolicySucceeded,
                      CleanupCall.deleteByPolicy h.name HookDeletePolicySucceeded])) := by
  have hexec : r = ⟨succList clock (sortHooks hooks),
      .successCleanup (succList clock (sortHooks hooks)), none,
      clock + 2 * (sortHooks hooks).length⟩ := by
    rw [hr]
    unfold execHookCore
    conv_lhs => rw [show sortHooks hooks = sortHooks hooks ++ [] from by simp]
    rw [execLoop_advance env cb hookEvent _ hall [] [] clock]
    rw [List.nil_append]
    rfl
  refine ⟨by rw [hexec], by rw [hexec], ?_, ?_, ?_⟩
  · rw [hexec]; exact succList_map_name clock _
  · rw [hexec]; exact succList_phase clock _
  · rw [hexec]
    simp only [runShutdown, cleanupReverse_eq]

/-- C3 witness: two hooks, everything succeeding. -/
theorem spec_C3_witness :
    (∀ h ∈ sortHooks [hookA, hookB],
      stepOK allOkEnv allOkCb h ∧ allOkEnv.waitErr h.manifest = none) ∧
    (execHookCore allOkEnv allOkCb [hookA, hookB] "pre-install" 0).err = none :=
  ⟨by decide,
   (spec_C3 allOkEnv allOkCb [hookA, hookB] "pre-install" 0 _ rfl (by decide)).1⟩

/-- C6: when cluster creation of hook i's resources fails after a fully
successful prefix, execHookCore marks that hook's LastRun phase Failed with
a completion timestamp one tick after its start, returns the wrapped
creation error together with the no-op shutdown (whose invocation performs
no deletions), and the hooks after i are left untouched. -/
theorem spec_C6 (env : KubeEnv) (cb : Callbacks) (hooks : List Hook)
    (hookEvent : String) (clock i : Nat) (e : String) (r : ExecResult)
    (hr : r = execHookCore env cb hooks hookEvent clock)
    (hi : i < (sortHooks hooks).length)
    (hpre : ∀ h ∈ (sortHooks hooks).take i,
      stepOK env cb h ∧ env.waitErr h.manifest = none)
    (hdel : cb.deleteByPolicy (SetDefaultDeletePolicy ((sortHooks hooks).getD i default))
      HookDeletePolicyBeforeCreation = none)
    (hbuild : env.buildErr ((sortHooks hooks).getD i default).manifest = none)
    (hcreate : env.createErr ((sortHooks hooks).getD i default).manifest = some e) :
    r.err = some ("warning: Hook " ++ hookEvent ++ " " ++
      ((sortHooks hooks).getD i default).path ++ " failed: " ++ e) ∧
    r.shutdown = ExecuteShutdownFunc.shutdownNoOp ∧
    runShutdown cb r.shutdown = (none, []) ∧
    (r.hooks.getD i default).lastRun.phase = HookPhaseFailed ∧
    (r.hooks.getD i default).lastRun.completedAt
      = (r.hooks.getD i default).lastRun.startedAt + 1 ∧
    r.hooks.drop (i + 1) = (sortHooks hooks).drop (i + 1) := by
  have hlenpre := length_take_of_lt (sortHooks hooks) i hi
  have hlensucc : (succList clock ((sortHooks hooks).take i)).length = i := by
    simp [hlenpre]
  have hexec : r = ⟨succList clock ((sortHooks hooks).take i) ++
        failHook (clock + 2 * i) ((sortHooks hooks).getD i default) ::
          (sortHooks hooks).drop (i + 1),
      .shutdownNoOp,
      some ("warning: Hook " ++ hookEvent ++ " " ++
        ((sortHooks hooks).getD i default).path ++ " failed: " ++ e),
      clock + 2 * i + 2⟩ := by
    rw [hr]
    unfold execHookCore
    conv_lhs => rw [take_getD_drop (sortHooks hooks) i hi]
    rw [execLoop_advance env cb hookEvent _ hpre [] _ clock]
    rw [execLoop_create_fail env cb hookEvent _ _ _ _ e hdel hbuild hcreate]
    rw [List.nil_append, hlenpre]
  have hgetD : r.hooks.getD i default
      = failHook (clock + 2 * i) ((sortHooks hooks).getD i default) := by
    rw [hexec]
    simpa [hlensucc] using append_cons_getD (succList clock ((sortHooks hooks).take i)) _ _
  refine ⟨by rw [hexec], by rw [hexec], by rw [hexec]; rfl, ?_, ?_, ?_⟩
  · rw [hgetD]; simp
  · rw [hgetD]; simp
  · rw [hexec]
    simpa [hlensucc] using append_cons_drop (succList clock ((sortHooks hooks).take i)) _ _

/-- C6 witness: creation failure on hookA after hookB succeeded. -/
theorem spec_C6_witness :
    createFailEnv.createErr ((sortHooks [hookA, hookB]).getD 1 default).manifest
      = some "create failed" ∧
    (execHookCore createFailEnv allOkCb [hookA, hookB] "pre-install" 0).err
      = some ("warning: Hook " ++ "pre-install" ++ " " ++
        ((sortHooks [hookA, hookB]).getD 1 default).path ++ " failed: " ++ "create failed") :=
  ⟨by decide,
   (spec_C6 createFailEnv allOkCb [hookA, hookB] "pre-install" 0 1 "create failed"
      _ rfl (by decide) (by decide) (by decide) (by decide) (by decide)).1⟩

/-- C7: when parsing hook i's manifest into resource objects fails after a
fully successful prefix, execHookCore returns a wrapped error naming the
hook event and the hook's path together with the no-op shutdown (whose
invocation performs no deletions); the failing hook's LastRun is not
modified and the hooks after i are left untouched. -/
theorem spec_C7 (env : KubeEnv) (cb : Callbacks) (hooks : List Hook)
    (hookEvent : String) (clock i : Nat) (e : String) (r : ExecResult)
    (hr : r = execHookCore env cb hooks hookEvent clock)
    (hi : i < (sortHooks hooks).length)
    (hpre : ∀ h ∈ (sortHooks hooks).take i,
      stepOK env cb h ∧ env.waitErr h.manifest = none)
    (hdel : cb.deleteByPolicy (SetDefaultDeletePolicy ((sortHooks hooks).getD i default))
      HookDeletePolicyBeforeCreation = none)
    (hbuild : env.buildErr ((sortHooks hooks).getD i default).manifest = some e) :
    r.err = some ("unable to build kubernetes object for " ++ hookEvent ++
      " hook " ++ ((sortHooks hooks).getD i default).path ++ ": " ++ e) ∧
    r.shutdown = ExecuteShutdownFunc.shutdownNoOp ∧
    runShutdown cb r.shutdown = (none, []) ∧
    (r.hooks.getD i default).lastRun = ((sortHooks hooks).getD i default).lastRun ∧
    r.hooks.drop (i + 1) = (sortHooks hooks).drop (i + 1) := by
  have hlenpre := length_take_of_lt (sortHooks hooks) i hi
  have hlensucc : (succList clock ((sortHooks hooks).take i)).length = i := by
    simp [hlenpre]
  have hexec : r = ⟨succList clock ((sortHooks hooks).take i) ++
        SetDefaultDeletePolicy ((sortHooks hooks).getD i default) ::
          (sortHooks hooks).drop (i + 1),
      .shutdownNoOp,
      some ("unable to build kubernetes object for " ++ hookEvent ++
        " hook " ++ ((sortHooks hooks).getD i default).path ++ ": " ++ e),
      clock + 2 * i⟩ := by
    rw [hr]
    unfold execHookCore
    conv_lhs => rw [take_getD_drop (sortHooks hooks) i hi]
    rw [execLoop_advance env cb hookEvent _ hpre [] _ clock]
    rw [execLoop_build_fail env cb hookEvent _ _ _ _ e hdel hbuild]
    rw [List.nil_append, hlenpre]
  have hgetD : r.hooks.getD i default
      = SetDefaultDeletePolicy ((sortHooks hooks).getD i default) := by
    rw [hexec]
    simpa [hlensucc] using append_cons_getD (succList clock ((sortHooks hooks).take i)) _ _
  refine ⟨by rw [hexec], by rw [hexec], by rw [hexec]; rfl, ?_, ?_⟩
  · rw [hgetD]; simp
  · rw [hexec]
    simpa [hlensucc] using append_cons_drop (succList clock ((sortHooks hooks).take i)) _ _

/-- C7 witness: manifest build failure on hookA after hookB succeeded; the
wrapped error names the event and the hook's path. -/
theorem spec_C7_witness :
    buildFailEnv.buildErr ((sortHooks [hookA, hookB]).getD 1 default).manifest
      = some "build failed" ∧
    (execHookCore buildFailEnv allOkCb [hookA, hookB] "pre-install" 0).err
      = some ("unable to build kubernetes object for " ++ "pre-install" ++
        " hook " ++ ((sortHooks [hookA, hookB]).getD 1 default).path ++ ": " ++ "build failed") :=
  ⟨by decide,
   (spec_C7 buildFailEnv allOkCb [hookA, hookB] "pre-install" 0 1 "build failed"
      _ rfl (by decide) (by decide) (by decide) (by decide)).1⟩

/-! ### Scheduler lemmas and C5 -/

/-- Every name placed by the peeling comes from the peeled node set. -/
theorem peelTiers_names : ∀ (fuel : Nat) (placed : List String)
    (remaining : List DependencyGraphNode) (tier : List String),
    tier ∈ peelTiers fuel placed remaining →
    ∀ x ∈ tier, ∃ m ∈ remaining, m.name = x := by
  intro fuel
  induction fuel with
  | zero =>
    intro placed remaining tier htier
    simp [peelTiers] at htier
  | succ f ih =>
    intro placed remaining tier htier x hx
    cases remaining with
    | nil => simp [peelTiers] at htier
    | cons r rs =>
      simp only [peelTiers] at htier
      by_cases hready : ((r :: rs).filter (readyNode placed)).isEmpty
      · simp [hready] at htier
      · simp only [hready, Bool.false_eq_true, if_false, List.mem_cons] at htier
        rcases htier with rfl | htier
        · obtain ⟨m, hm, rfl⟩ := List.mem_map.mp hx
          exact ⟨m, (List.mem_filter.mp hm).1, rfl⟩
        · obtain ⟨m, hm, hnm⟩ := ih _ _ tier htier x hx
          exact ⟨m, (List.mem_filter.mp hm).1, hnm⟩

/-- C5: on the dependency graph of the example (bar depends on nginx and
rabbitmq; orphaned depends on nothing and nothing depends on it) with owner
foo, the installation batches are [nginx, rabbitmq], then [bar], then
[orphaned together with foo's own resources]; in general, when node names
are distinct, an isolated node is placed in the final tier and in no earlier
tier. -/
theorem spec_C5 :
    GetInstallationBatches "foo" exampleNodes
      = [["nginx", "rabbitmq"], ["bar"], ["orphaned", "foo"]] ∧
    (∀ (owner : String) (nodes : List DependencyGraphNode) (n : DependencyGraphNode),
      (nodes.map (fun m => m.name)).Nodup → n ∈ nodes → isIsolated nodes n = true →
      n.name ∈ (GetInstallationBatches owner nodes).getLastD [] ∧
      ∀ tier ∈ (GetInstallationBatches owner nodes).dropLast, n.name ∉ tier) := by
  constructor
  · decide
  · intro owner nodes n hnd hmem hiso
    constructor
    · simp only [GetInstallationBatches, List.getLastD_concat]
      refine List.mem_append_left _ (List.mem_map.mpr ⟨n, ?_, rfl⟩)
      exact List.mem_filter.mpr ⟨hmem, hiso⟩
    · intro tier htier hx
      simp only [GetInstallationBatches, List.dropLast_concat] at htier
      obtain ⟨m, hm, hnm⟩ := peelTiers_names _ _ _ tier htier n.name hx
      have hm' := List.mem_filter.mp hm
      have hnm' : n = m :=
        List.inj_on_of_nodup_map hnd hmem hm'.1 hnm.symm
      rw [← hnm'] at hm'
      rw [hiso] at hm'
      simp at hm'

/-- C5 witness: the orphaned node of the example is isolated, lands in the
final tier and in no earlier tier. -/
theorem spec_C5_witness :
    ((exampleNodes.map (fun m => m.name)).Nodup ∧
     isIsolated exampleNodes orphanedNode = true) ∧
    (orphanedNode.name ∈ (GetInstallationBatches "foo" exampleNodes).getLastD [] ∧
     ∀ tier ∈ (GetInstallationBatches "foo" exampleNodes).dropLast,
       orphanedNode.name ∉ tier) :=
  ⟨⟨by decide, by decide⟩,
   spec_C5.2 "foo" exampleNodes orphanedNode (by decide) (by decide) (by decide)⟩

end HelmSpec
